import Mathlib

/-!
Verification of the `mygit` object store (`src/object.rs`, `src/ignore.rs`).

Byte strings are modelled as `List Nat` (each element an octet).  Rust
`String` values are modelled by the list of their UTF-8 bytes; `OsStr`
values (filesystem paths and names) are likewise byte lists, and the
fallible `OsStr::to_str` conversion is modelled by an explicit UTF-8
validity check.  Fallible Rust code (`Result`) is modelled with `Option`:
`none` stands for any `Err` return (the distinction between error kinds is
not needed by the properties below, except where noted).  Code that can
panic (string slicing in `Object::from_hash`) is modelled separately with
an outer `Option` layer so that a panic is distinguishable from a returned
error.
-/

namespace Mygit

/-- UTF-8 bytes of a (pure-ASCII) Lean string literal; used to write the
byte-list constants of the Rust source readably. -/
def ascii (s : String) : List Nat := s.toList.map Char.toNat

/-- Decimal digits (as ASCII bytes) of a natural number, as produced by
Rust `format!("{}", n)` for an unsigned integer. -/
def natDecimal (n : Nat) : List Nat := (Nat.toDigits 10 n).map Char.toNat

/-- Decimal rendering (as ASCII bytes) of a signed integer, as produced by
Rust `format!("{}", i)`: a leading minus sign for negative values. -/
def intDecimal (i : Int) : List Nat :=
  if i < 0 then 45 :: natDecimal i.natAbs else natDecimal i.natAbs

/-- Rust `{:02}` formatting of a nonnegative integer: zero-padded to a
minimum width of two characters, wider numbers printed in full. -/
def pad2 (n : Nat) : List Nat :=
  if n < 10 then 48 :: natDecimal n else natDecimal n

/-- `src/object.rs` `User { name, email }`. -/
structure User where
  name : List Nat
  email : List Nat
deriving DecidableEq, Repr

/-- `impl Display for User`: `write!(f, "{} <{}>", self.name, self.email)`. -/
def displayUser (u : User) : List Nat :=
  u.name ++ ascii " <" ++ u.email ++ ascii ">"

/-- `src/object.rs` `Timestamp { seconds: i64, offset: i32 }`. -/
structure Timestamp where
  seconds : Int
  offset : Int
deriving DecidableEq, Repr

/-- `impl Display for Timestamp`, modelled byte for byte from the source:
`sign` is `-` when the offset is negative, otherwise `+`; `hours` is
`offset.abs() / 3600`; `minutes` is `offset.abs() % 3600` (note: the
source does not divide the remainder by 60); the output is
`"{seconds} {sign}{hours:02}{minutes:02}"`. -/
def displayTimestamp (t : Timestamp) : List Nat :=
  let sign : Nat := if t.offset < 0 then 45 else 43
  let offset := t.offset.natAbs
  let hours := offset / 3600
  let minutes := offset % 3600
  intDecimal t.seconds ++ [32, sign] ++ pad2 hours ++ pad2 minutes

/-- `src/object.rs` `Entry { mode: String, filename: String, hash: String }`
(a tree line; `hash` holds the 40-character hex text form). -/
structure Entry where
  mode : List Nat
  filename : List Nat
  hash : List Nat
deriving DecidableEq, Repr

/-- `src/object.rs` `enum Object`. -/
inductive Object where
  | Blob : List Nat → Object
  | Tree : List Entry → Object
  | Commit : (tree : List Nat) → (parents : List (List Nat)) →
      (author : User) → (author_timestamp : Timestamp) →
      (committer : User) → (committer_timestamp : Timestamp) →
      (message : List Nat) → Object
deriving DecidableEq, Repr

/-- Value of one hex digit accepted by `u8::from_str_radix(_, 16)`:
`0-9`, `a-f`, `A-F`. -/
def hexDigitVal (c : Nat) : Option Nat :=
  if 48 ≤ c ∧ c ≤ 57 then some (c - 48)
  else if 97 ≤ c ∧ c ≤ 102 then some (c - 87)
  else if 65 ≤ c ∧ c ≤ 70 then some (c - 55)
  else none

/-- `u8::from_str_radix` applied to a two-character slice, as done in
`Object::write` for trees (`&entry.hash[i..i + 2]`).  `from_str_radix`
also accepts a leading plus sign, so `"+f"` parses as 15. -/
def hexPairVal (c1 c2 : Nat) : Option Nat :=
  if c1 = 43 then hexDigitVal c2
  else do
    let v1 ← hexDigitVal c1
    let v2 ← hexDigitVal c2
    pure (16 * v1 + v2)

/-- The `(0..hash.len()).step_by(2)` loop of `Object::write` converting the
hex text of an entry hash into raw bytes; `none` models both a parse
failure (propagated as `Err` by the `?`) and the slice panic that an
odd-length hash would cause at its final two-character slice. -/
def hexPairs : List Nat → Option (List Nat)
  | [] => some []
  | c1 :: c2 :: rest => do
    let v ← hexPairVal c1 c2
    let vs ← hexPairs rest
    pure (v :: vs)
  | [_] => none

/-- The framed byte sequence `"<type> <len>\0<payload>"` built by
`Object::write` (`format!("{} {}\0", ty, payload.len())` followed by the
payload bytes). -/
def frameBytes (ty : List Nat) (payload : List Nat) : List Nat :=
  ty ++ [32] ++ natDecimal payload.length ++ [0] ++ payload

/-- Tree payload construction of `Object::write`: for each entry in list
order, mode bytes, a space, filename bytes, a NUL, then the raw bytes
parsed from the hex text of the entry hash. -/
def encodeEntries : List Entry → Option (List Nat)
  | [] => some []
  | e :: rest => do
    let hb ← hexPairs e.hash
    let tl ← encodeEntries rest
    pure (e.mode ++ [32] ++ e.filename ++ [0] ++ hb ++ tl)

/-- Rust `Vec::join(sep)` on a list of byte strings. -/
def joinSep (sep : List Nat) : List (List Nat) → List Nat
  | [] => []
  | [x] => x
  | x :: y :: xs => x ++ sep ++ joinSep sep (y :: xs)

/-- The parent block of a commit payload in `Object::write`: when the
parent list is nonempty, the `"parent {}"` lines joined with `"\n"` and
then a trailing `"\n"`; otherwise the empty string. -/
def parentsBlock (parents : List (List Nat)) : List Nat :=
  if parents.length > 0 then
    joinSep [10] (parents.map (fun p => ascii "parent " ++ p)) ++ [10]
  else []

/-- The commit payload `format!` of `Object::write`:
`"tree {}\n{}author {} {}\ncommitter {} {}\n\n{}\n"`. -/
def commitContent (tree : List Nat) (parents : List (List Nat))
    (author : User) (authorTs : Timestamp)
    (committer : User) (committerTs : Timestamp)
    (message : List Nat) : List Nat :=
  ascii "tree " ++ tree ++ [10] ++
  parentsBlock parents ++
  ascii "author " ++ displayUser author ++ [32] ++ displayTimestamp authorTs ++ [10] ++
  ascii "committer " ++ displayUser committer ++ [32] ++ displayTimestamp committerTs ++ [10] ++
  [10] ++ message ++ [10]

/-- The full framed byte sequence (`content` in `Object::write`) of an
object; `none` models the `Err` return on an unparsable entry hash. -/
def encodeObject : Object → Option (List Nat)
  | Object.Blob data => some (frameBytes (ascii "blob") data)
  | Object.Tree entries => do
    let payload ← encodeEntries entries
    pure (frameBytes (ascii "tree") payload)
  | Object.Commit tree parents author ats committer cts message =>
    some (frameBytes (ascii "commit")
      (commitContent tree parents author ats committer cts message))

/-! SHA-1 (the `crypto::sha1::Sha1` digest used by `Object::write`),
implemented over byte lists with 32-bit words carried as `Nat` values
reduced modulo `2 ^ 32`. -/

/-- 32-bit left rotation. -/
def rotl (x n : Nat) : Nat :=
  ((x <<< n) ||| (x >>> (32 - n))) % 4294967296

/-- SHA-1 round function for round `i`. -/
def sha1F (i b c d : Nat) : Nat :=
  if i < 20 then (b &&& c) ||| ((b ^^^ 4294967295) &&& d)
  else if i < 40 then b ^^^ c ^^^ d
  else if i < 60 then (b &&& c) ||| (b &&& d) ||| (c &&& d)
  else b ^^^ c ^^^ d

/-- SHA-1 round constant for round `i`. -/
def sha1K (i : Nat) : Nat :=
  if i < 20 then 1518500249
  else if i < 40 then 1859775393
  else if i < 60 then 2400959708
  else 3395469782

/-- Big-endian 32-bit words from a byte list. -/
def bytesToWords : List Nat → List Nat
  | b0 :: b1 :: b2 :: b3 :: rest =>
    (b0 * 16777216 + b1 * 65536 + b2 * 256 + b3) :: bytesToWords rest
  | _ => []

/-- Message-schedule extension: appends `k` more words, each the 1-bit
rotation of the xor of the words 3, 8, 14 and 16 positions back. -/
def sha1Extend (ws : List Nat) : Nat → List Nat
  | 0 => ws
  | k + 1 =>
    let n := ws.length
    sha1Extend (ws ++ [rotl ((ws.getD (n - 3) 0) ^^^ (ws.getD (n - 8) 0) ^^^
      (ws.getD (n - 14) 0) ^^^ (ws.getD (n - 16) 0)) 1]) k

/-- The 80-round compression loop; `i` is the current round index and the
state is the tuple `(a, b, c, d, e)`. -/
def sha1Loop (w : List Nat) (i : Nat) (st : Nat × Nat × Nat × Nat × Nat) :
    Nat → Nat × Nat × Nat × Nat × Nat
  | 0 => st
  | r + 1 =>
    let (a, b, c, d, e) := st
    let t := (rotl a 5 + sha1F i b c d + e + sha1K i + w.getD i 0) % 4294967296
    sha1Loop w (i + 1) (t, a, rotl b 30, c, d) r

/-- One SHA-1 block compression. -/
def sha1Compress (h : Nat × Nat × Nat × Nat × Nat) (block : List Nat) :
    Nat × Nat × Nat × Nat × Nat :=
  let (h0, h1, h2, h3, h4) := h
  let w := sha1Extend (bytesToWords block) 64
  let (a, b, c, d, e) := sha1Loop w 0 (h0, h1, h2, h3, h4) 80
  ((h0 + a) % 4294967296, (h1 + b) % 4294967296, (h2 + c) % 4294967296,
   (h3 + d) % 4294967296, (h4 + e) % 4294967296)

/-- Big-endian 8-byte rendering of a (message bit-length) number. -/
def be64 (n : Nat) : List Nat :=
  [(n >>> 56) % 256, (n >>> 48) % 256, (n >>> 40) % 256, (n >>> 32) % 256,
   (n >>> 24) % 256, (n >>> 16) % 256, (n >>> 8) % 256, n % 256]

/-- Big-endian 4-byte rendering of a 32-bit word. -/
def wordToBytes (w : Nat) : List Nat :=
  [(w >>> 24) % 256, (w >>> 16) % 256, (w >>> 8) % 256, w % 256]

/-- MD-strengthening padding: `0x80`, zeros to 56 mod 64, then the 64-bit
big-endian bit length. -/
def sha1Pad (msg : List Nat) : List Nat :=
  msg ++ [128] ++ List.replicate ((119 - msg.length % 64) % 64) 0 ++
    be64 (msg.length * 8)

/-- Folds the compression function over `n` consecutive 64-byte blocks. -/
def sha1Blocks (h : Nat × Nat × Nat × Nat × Nat) (l : List Nat) :
    Nat → Nat × Nat × Nat × Nat × Nat
  | 0 => h
  | k + 1 => sha1Blocks (sha1Compress h (l.take 64)) (l.drop 64) k

/-- The 20-byte SHA-1 digest of a byte list. -/
def sha1Bytes (msg : List Nat) : List Nat :=
  let padded := sha1Pad msg
  let (h0, h1, h2, h3, h4) :=
    sha1Blocks (1732584193, 4023233417, 2562383102, 271733878, 3285377520)
      padded (padded.length / 64)
  wordToBytes h0 ++ wordToBytes h1 ++ wordToBytes h2 ++ wordToBytes h3 ++
    wordToBytes h4

/-- One lowercase hex digit (as an ASCII byte). -/
def hexDigitChar (n : Nat) : Nat := if n < 10 then 48 + n else 87 + n

/-- Lowercase two-digit hex rendering of one byte, as in
`format!("{:02x}", b)`. -/
def byteToHex (b : Nat) : List Nat := [hexDigitChar (b / 16), hexDigitChar (b % 16)]

/-- `Sha1::result_str`: the 40-character lowercase hex text of the digest. -/
def sha1Hex (msg : List Nat) : List Nat :=
  (sha1Bytes msg).flatMap byteToHex

/-- The hash computed by `Object::write`: SHA-1 over the entire framed byte
sequence, rendered as hex text. -/
def objectHash (o : Object) : Option (List Nat) :=
  (encodeObject o).map sha1Hex

/-! Decoding (`Object::from_hash` after zlib decompression). -/

/-- `BufRead::read_until(delim)`: consumes bytes up to and including the
first occurrence of the delimiter, or the whole input when the delimiter
is absent; returns the consumed bytes and the remaining input. -/
def readUntil (d : Nat) : List Nat → List Nat × List Nat
  | [] => ([], [])
  | b :: rest =>
    if b = d then ([b], rest)
    else
      let (consumed, r) := readUntil d rest
      (b :: consumed, r)

/-- Rust `String::from_utf8` validity of a byte list: the exact UTF-8
well-formedness check (continuation-byte shapes, no overlong forms, no
surrogates, maximum U+10FFFF). -/
def validUtf8 : List Nat → Bool
  | [] => true
  | b :: rest =>
    if b < 128 then validUtf8 rest
    else if b < 194 then false
    else if b < 224 then
      match rest with
      | c1 :: r => 128 ≤ c1 && c1 < 192 && validUtf8 r
      | [] => false
    else if b < 240 then
      match rest with
      | c1 :: c2 :: r =>
        (if b = 224 then 160 ≤ c1 && c1 < 192
         else if b = 237 then 128 ≤ c1 && c1 < 160
         else 128 ≤ c1 && c1 < 192) &&
        (128 ≤ c2 && c2 < 192) && validUtf8 r
      | _ => false
    else if b < 245 then
      match rest with
      | c1 :: c2 :: c3 :: r =>
        (if b = 240 then 144 ≤ c1 && c1 < 192
         else if b = 244 then 128 ≤ c1 && c1 < 144
         else 128 ≤ c1 && c1 < 192) &&
        (128 ≤ c2 && c2 < 192) && (128 ≤ c3 && c3 < 192) && validUtf8 r
      | _ => false
    else false

/-- The tree-entry loop of `Object::from_hash`: while input remains, read
the mode up to a space (dropping the delimiter), the filename up to a NUL
(dropping the delimiter), then exactly 20 raw hash bytes (an `Err` — and
hence `none` — when fewer remain), storing the hash as lowercase hex
text; mode and filename must be valid UTF-8. -/
def decodeEntriesFuel (fuel : Nat) (l : List Nat) : Option (List Entry) :=
  match l, fuel with
  | [], _ => some []
  | _ :: _, 0 => none
  | b :: rest, f + 1 =>
    match readUntil 32 (b :: rest) with
    | (modeBuf, r1) =>
      match readUntil 0 r1 with
      | (fnBuf, r2) =>
        if r2.length < 20 then none
        else if validUtf8 modeBuf.dropLast && validUtf8 fnBuf.dropLast then
          match decodeEntriesFuel f (r2.drop 20) with
          | some es =>
            some (⟨modeBuf.dropLast, fnBuf.dropLast,
              (r2.take 20).flatMap byteToHex⟩ :: es)
          | none => none
        else none

/-- The loop itself: every iteration consumes at least one input byte (the
`read_until` calls consume the bytes they scan), so the input length
bounds the number of iterations and `decodeEntriesFuel` run with that
much fuel is the exact loop (`decodeEntriesFuel_congr` below proves the
fuel value irrelevant from the input length up, so the `fuel = 0`
catch-all of `decodeEntriesFuel` is never reached). -/
def decodeEntries (l : List Nat) : Option (List Entry) :=
  decodeEntriesFuel l.length l

/-- `Object::from_hash` applied to already-decompressed framed bytes: read
the type token up to the first space (the trailing delimiter is removed
by `buf.pop()`), require it to be valid UTF-8, and dispatch on `"blob"`
and `"tree"`; any other token is `InvalidObjectFormat`.  Note that no
further bytes are consumed before the payload is read, so the declared
length and its NUL terminator remain in the stream. -/
def decodeObject (l : List Nat) : Option Object :=
  let (buf, rest) := readUntil 32 l
  let token := buf.dropLast
  if validUtf8 token then
    if token = ascii "blob" then some (Object.Blob rest)
    else if token = ascii "tree" then (decodeEntries rest).map Object.Tree
    else none
  else none

/-- Rust `str::is_char_boundary` on the UTF-8 bytes of a string: index 0
and the length are boundaries, an in-range index is a boundary when its
byte is not a continuation byte, an out-of-range index is not. -/
def isCharBoundary (s : List Nat) (i : Nat) : Bool :=
  if i = 0 then true
  else if i = s.length then true
  else
    match s.get? i with
    | none => false
    | some b => b < 128 || 192 ≤ b

/-- The storage-address derivation of `Object::from_hash` and
`Object::write`: the slices `&hash[..2]` and `&hash[2..]`.  Rust string
slicing panics when the index is past the end or not a character
boundary; `none` models that panic. -/
def sliceAddr (hash : List Nat) : Option (List Nat × List Nat) :=
  if isCharBoundary hash 2 then some (hash.take 2, hash.drop 2) else none

/-- The path `".git/objects/{dir}/{file}"` for a derived address. -/
def objectFilePath (dir file : List Nat) : List Nat :=
  ascii ".git/objects/" ++ dir ++ ascii "/" ++ file

/-- `Object::from_hash` end to end.  `readObj` models `fs::File::open`
composed with zlib decompression: it maps a path to the decompressed
bytes, or `none` for any I/O or decompression failure.  The outer
`Option` layer distinguishes the string-slice panic (`none`) from a
normal return; the inner `Option` is the `Result` value (`none` for any
returned error such as a missing record or an invalid format). -/
def from_hashModel (readObj : List Nat → Option (List Nat)) (hash : List Nat) :
    Option (Option Object) :=
  match sliceAddr hash with
  | none => none
  | some (d, f) =>
    some (match readObj (objectFilePath d f) with
      | none => none
      | some bytes => decodeObject bytes)

/-! The object store (`Object::write`'s filesystem effect).  The on-disk
state is modelled as an association list from storage addresses — the
pair (first two hex characters, remaining 38) under `.git/objects/` — to
the stored file bytes.  Compression (`ZlibEncoder` at the default level)
is a deterministic pure byte transformation whose internals are
irrelevant to the store's contract, so it is a function parameter. -/

/-- A storage address: directory name and file name. -/
def Addr : Type := List Nat × List Nat

instance : DecidableEq Addr := by
  unfold Addr
  infer_instance

/-- The on-disk object store: address-to-bytes association list. -/
def FS : Type := List (Addr × List Nat)

instance : DecidableEq FS := by
  unfold FS
  infer_instance

/-- `Path::exists` / file lookup on the modelled store. -/
def lookupFS (fs : FS) (a : Addr) : Option (List Nat) :=
  match fs with
  | [] => none
  | (a1, b1) :: rest => if a1 = a then some b1 else lookupFS rest a

/-- `Object::write`: encode, hash the framed bytes, derive the address
from the hash (`&hash[..2]`, `&hash[2..]`); when a record already exists
at that address return the hash without touching the store, otherwise
persist the compressed bytes there.  Returns the hash and the new store
state; `none` models an `Err` return from encoding. -/
def storeWrite (compress : List Nat → List Nat) (o : Object) (fs : FS) :
    Option (List Nat × FS) :=
  match encodeObject o with
  | none => none
  | some content =>
    let hash := sha1Hex content
    let addr : Addr := (hash.take 2, hash.drop 2)
    match lookupFS fs addr with
    | some _ => some (hash, fs)
    | none => some (hash, (addr, compress content) :: fs)

/-! The exclusion set (`src/ignore.rs`). -/

/-- `Ignore::contains`: resolve the path to its absolute form and test
exact membership in the stored entry list.  `absResolve` models
`path::absolute` composed with `Path::to_str`: it returns the absolute
path string, or `none` when resolution fails or the absolute form is not
valid UTF-8 — both of which `contains` turns into `false`. -/
def containsIg (absResolve : List Nat → Option (List Nat))
    (entries : List (List Nat)) (path : List Nat) : Bool :=
  match absResolve path with
  | none => false
  | some abspath => entries.contains abspath

/-! The tree builder (`create_tree`). -/

/-- Rust `String::cmp` is lexicographic on the UTF-8 bytes; this is the
corresponding `is less than or equal` test on byte lists, used by
`entries.sort_by(|a, b| a.filename.cmp(&b.filename))`. -/
def lexLe : List Nat → List Nat → Bool
  | [], _ => true
  | _ :: _, [] => false
  | a :: as_, b :: bs =>
    if a < b then true
    else if b < a then false
    else lexLe as_ bs

/-- One enumerated filesystem node, as `create_tree` classifies it:
a subdirectory (with its own enumerated children, each a triple of
full path, file name, and node), a symbolic link, or a regular file
with its content and the state of its executable permission bits. -/
inductive FNode where
  | dirNode : List (List Nat × List Nat × FNode) → FNode
  | symlinkNode : FNode
  | fileNode : List Nat → Bool → FNode
deriving Repr

/-- The child loop of `create_tree`, followed in the directory case by the
sort-and-write step.  For each child in enumeration order: convert its
path and file name from the OS form (`to_str`, an `Err` — hence `none` —
on invalid UTF-8), skip it when the exclusion set contains its path,
recurse on directories (writing the subtree and recording a `040000`
entry), skip symbolic links, and write regular files as blobs (mode
`100755` when any executable bit is set, else `100644`).  The store
state threads left to right exactly as the Rust loop's side effects do. -/
def processChildren (compress : List Nat → List Nat) (ign : List Nat → Bool) :
    List (List Nat × List Nat × FNode) → FS → Option (List Entry × FS)
  | [], fs => some ([], fs)
  | (path, filename, node) :: rest, fs =>
    if validUtf8 path = false then none
    else if validUtf8 filename = false then none
    else if ign path then processChildren compress ign rest fs
    else
      match node with
      | FNode.dirNode sub =>
        match processChildren compress ign sub fs with
        | none => none
        | some (subEntries, fs1) =>
          match storeWrite compress
              (Object.Tree (subEntries.mergeSort
                (fun a b => lexLe a.filename b.filename))) fs1 with
          | none => none
          | some (h, fs2) =>
            match processChildren compress ign rest fs2 with
            | none => none
            | some (es, fs3) => some (⟨ascii "040000", filename, h⟩ :: es, fs3)
      | FNode.symlinkNode => processChildren compress ign rest fs
      | FNode.fileNode content exec =>
        match storeWrite compress (Object.Blob content) fs with
        | none => none
        | some (h, fs2) =>
          match processChildren compress ign rest fs2 with
          | none => none
          | some (es, fs3) =>
            some (⟨ascii (if exec then "100755" else "100644"), filename, h⟩ :: es, fs3)

/-- The canonicalization step of `create_tree`:
`entries.sort_by(|a, b| a.filename.cmp(&b.filename))`, an ascending
byte-wise sort on filenames. -/
def sortEntries (entries : List Entry) : List Entry :=
  entries.mergeSort (fun a b => lexLe a.filename b.filename)

/-- `create_tree` on one directory: run the child loop, sort the collected
entries by filename, encode and write the tree, and return its hash with
the final store state. -/
def createTree (compress : List Nat → List Nat) (ign : List Nat → Bool)
    (children : List (List Nat × List Nat × FNode)) (fs : FS) :
    Option (List Nat × FS) :=
  match processChildren compress ign children fs with
  | none => none
  | some (entries, fs1) => storeWrite compress (Object.Tree (sortEntries entries)) fs1

/-! Claim-side formulations.  The following definitions transcribe the
wording of the specification (not the source); the theorems below compare
them with the source-derived definitions above. -/

/-- Timestamp display as the specification words it: seconds, a space, the
sign, the offset's whole hours `|o| / 3600` and remaining whole minutes
`(|o| % 3600) / 60`, each zero-padded to width 2. -/
def displayTimestampClaim (t : Timestamp) : List Nat :=
  let sign : Nat := if t.offset < 0 then 45 else 43
  let offset := t.offset.natAbs
  intDecimal t.seconds ++ [32, sign] ++ pad2 (offset / 3600) ++
    pad2 (offset % 3600 / 60)

/-- Whether a byte is an ASCII lowercase hex digit (`0-9`, `a-f`). -/
def isLowerHexDigit (c : Nat) : Bool :=
  (48 ≤ c && c ≤ 57) || (97 ≤ c && c ≤ 102)

/-- Numeric value of a lowercase hex digit. -/
def hexVal (c : Nat) : Nat := if c ≤ 57 then c - 48 else c - 87

/-- The raw bytes obtained from hex text, two characters per byte, as the
specification describes the 20 raw hash bytes of a tree entry. -/
def rawHashBytes : List Nat → List Nat
  | c1 :: c2 :: rest => (16 * hexVal c1 + hexVal c2) :: rawHashBytes rest
  | _ => []

/-- One tree-entry line as the specification words it: mode string, a
single space, filename bytes, a single NUL, then the raw hash bytes. -/
def entryLineClaim (e : Entry) : List Nat :=
  e.mode ++ [32] ++ e.filename ++ [0] ++ rawHashBytes e.hash

/-- The tree payload as the specification words it: the concatenation of
the entry lines in list order. -/
def treePayloadClaim (entries : List Entry) : List Nat :=
  (entries.map entryLineClaim).flatten

/-- The commit payload as the specification words it: a `tree` line, one
`parent` line per parent in order, `author` and `committer` lines, a
blank line, the message, and a trailing newline. -/
def commitPayloadClaim (tree : List Nat) (parents : List (List Nat))
    (author : User) (authorTs : Timestamp)
    (committer : User) (committerTs : Timestamp)
    (message : List Nat) : List Nat :=
  ascii "tree " ++ tree ++ [10] ++
  (parents.map (fun p => ascii "parent " ++ p ++ [10])).flatten ++
  ascii "author " ++ displayUser author ++ [32] ++ displayTimestamp authorTs ++ [10] ++
  ascii "committer " ++ displayUser committer ++ [32] ++ displayTimestamp committerTs ++ [10] ++
  [10] ++ message ++ [10]

/-! Helper lemmas. -/

theorem lexLe_total : ∀ (a b : List Nat), lexLe a b = true ∨ lexLe b a = true
  | [], _ => Or.inl rfl
  | _ :: _, [] => Or.inr rfl
  | a :: as_, b :: bs => by
    by_cases hab : a < b
    · left
      simp [lexLe, hab]
    · by_cases hba : b < a
      · right
        simp [lexLe, hba]
      · have : a = b := by omega
        subst this
        rcases lexLe_total as_ bs with h | h
        · left
          simpa [lexLe] using h
        · right
          simpa [lexLe] using h

theorem lexLe_antisymm : ∀ (a b : List Nat),
    lexLe a b = true → lexLe b a = true → a = b
  | [], [], _, _ => rfl
  | [], _ :: _, _, h2 => by simp [lexLe] at h2
  | _ :: _, [], h1, _ => by simp [lexLe] at h1
  | a :: as_, b :: bs, h1, h2 => by
    by_cases hab : a < b
    · simp [lexLe, hab, Nat.not_lt_of_lt hab] at h2
    · by_cases hba : b < a
      · simp [lexLe, hba, hab] at h1
      · have he : a = b := by omega
        subst he
        simp only [lexLe, Nat.lt_irrefl, if_false] at h1 h2
        rw [lexLe_antisymm as_ bs h1 h2]

theorem lexLe_trans : ∀ (a b c : List Nat),
    lexLe a b = true → lexLe b c = true → lexLe a c = true
  | [], _, _, _, _ => rfl
  | _ :: _, [], _, h1, _ => by simp [lexLe] at h1
  | _ :: _, _ :: _, [], _, h2 => by simp [lexLe] at h2
  | a :: as_, b :: bs, c :: cs, h1, h2 => by
    simp only [lexLe] at h1 h2 ⊢
    rcases Nat.lt_trichotomy a b with hab | hab | hab
    · rcases Nat.lt_trichotomy b c with hbc | hbc | hbc
      · rw [if_pos (show a < c by omega)]
      · subst hbc
        rw [if_pos hab]
      · rw [if_neg (show ¬b < c by omega), if_pos hbc] at h2
        exact absurd h2 (by simp)
    · subst hab
      rw [if_neg (show ¬a < a by omega), if_neg (show ¬a < a by omega)] at h1
      rcases Nat.lt_trichotomy a c with hac | hac | hac
      · rw [if_pos hac]
      · subst hac
        rw [if_neg (show ¬a < a by omega), if_neg (show ¬a < a by omega)] at h2 ⊢
        exact lexLe_trans as_ bs cs h1 h2
      · rw [if_neg (show ¬a < c by omega), if_pos hac] at h2
        exact absurd h2 (by simp)
    · rw [if_neg (show ¬a < b by omega), if_pos hab] at h1
      exact absurd h1 (by simp)

/-- The filename comparator used by `create_tree`'s sort. -/
theorem sortEntries_eq_of_perm (l1 l2 : List Entry) (hperm : l1.Perm l2)
    (hnd : (l1.map Entry.filename).Nodup) : sortEntries l1 = sortEntries l2 := by
  set le : Entry → Entry → Bool := fun a b => lexLe a.filename b.filename with hle
  have htrans : ∀ (a b c : Entry), le a b → le b c → le a c := by
    intro a b c h1 h2
    exact lexLe_trans _ _ _ h1 h2
  have htotal : ∀ (a b : Entry), le a b || le b a := by
    intro a b
    rcases lexLe_total a.filename b.filename with h | h <;> simp [hle, h]
  set r : Entry → Entry → Prop :=
    fun a b => le a b = true ∧ a.filename ≠ b.filename with hr
  haveI : IsAntisymm Entry r := by
    constructor
    intro a b hab hba
    exact absurd (lexLe_antisymm _ _ hab.1 hba.1) hab.2
  have hperm12 : sortEntries l1 |>.Perm (sortEntries l2) :=
    ((l1.mergeSort_perm le).trans hperm).trans (l2.mergeSort_perm le).symm
  have hsorted : ∀ (l : List Entry), (l.map Entry.filename).Nodup →
      (sortEntries l).Pairwise r := by
    intro l hl
    have h1 : (sortEntries l).Pairwise (fun a b => le a b = true) :=
      List.sorted_mergeSort htrans htotal l
    have h2 : (sortEntries l).Pairwise (fun a b => a.filename ≠ b.filename) := by
      have hp : ((sortEntries l).map Entry.filename).Nodup := by
        have : ((sortEntries l).map Entry.filename).Perm (l.map Entry.filename) :=
          (l.mergeSort_perm le).map Entry.filename
        exact this.nodup_iff.mpr hl
      exact (List.pairwise_map).mp hp
    exact h1.and h2
  have hnd2 : (l2.map Entry.filename).Nodup :=
    (hperm.map Entry.filename).nodup_iff.mp hnd
  exact List.eq_of_perm_of_sorted hperm12 (hsorted l1 hnd) (hsorted l2 hnd2)

set_option maxRecDepth 1000000

theorem readUntil_rest_length_le (d : Nat) (xs : List Nat) :
    (readUntil d xs).2.length ≤ xs.length := by
  induction xs with
  | nil => simp [readUntil]
  | cons x xs ih =>
    by_cases hx : x = d
    · simp [readUntil, hx]
    · simp [readUntil, hx]
      omega

theorem readUntil_rest_length_lt (d : Nat) (x : Nat) (xs : List Nat) :
    (readUntil d (x :: xs)).2.length < (x :: xs).length := by
  by_cases hx : x = d
  · simp [readUntil, hx]
  · simp [readUntil, hx]
    have := readUntil_rest_length_le d xs
    omega

/-- Any fuel of at least the input length gives the same result, so the
`fuel = 0` branch of `decodeEntriesFuel` is unreachable from
`decodeEntries` and the fuel encoding is a faithful model of the
source's loop. -/
theorem decodeEntriesFuel_congr : ∀ (f1 f2 : Nat) (l : List Nat),
    l.length ≤ f1 → l.length ≤ f2 →
    decodeEntriesFuel f1 l = decodeEntriesFuel f2 l
  | f1, f2, [], _, _ => by
    cases f1 <;> cases f2 <;> rfl
  | f1 + 1, f2 + 1, b :: rest, hf1, hf2 => by
    rw [decodeEntriesFuel, decodeEntriesFuel]
    cases hm : readUntil 32 (b :: rest) with
    | mk modeBuf r1 =>
      cases hf : readUntil 0 r1 with
      | mk fnBuf r2 =>
        have h1 : r1.length < (b :: rest).length := by
          have := readUntil_rest_length_lt 32 b rest
          rw [hm] at this
          exact this
        have h2 : r2.length ≤ r1.length := by
          have := readUntil_rest_length_le 0 r1
          rw [hf] at this
          exact this
        have h3 : (r2.drop 20).length ≤ f1 := by
          simp only [List.length_drop]
          simp only [List.length_cons] at h1 hf1
          omega
        have h4 : (r2.drop 20).length ≤ f2 := by
          simp only [List.length_drop]
          simp only [List.length_cons] at h1 hf2
          omega
        dsimp only
        rw [hf]
        dsimp only
        rw [decodeEntriesFuel_congr f1 f2 (r2.drop 20) h3 h4]

theorem storeWrite_eq (compress : List Nat → List Nat) (o : Object) (fs : FS)
    (content : List Nat) (henc : encodeObject o = some content) :
    storeWrite compress o fs =
      match lookupFS fs ((sha1Hex content).take 2, (sha1Hex content).drop 2) with
      | some _ => some (sha1Hex content, fs)
      | none => some (sha1Hex content,
          (((sha1Hex content).take 2, (sha1Hex content).drop 2),
            compress content) :: fs) := by
  unfold storeWrite
  rw [henc]

theorem hexDigitVal_eq (c : Nat) (h : isLowerHexDigit c = true) :
    hexDigitVal c = some (hexVal c) := by
  simp only [isLowerHexDigit, Bool.or_eq_true, Bool.and_eq_true, decide_eq_true_eq] at h
  unfold hexDigitVal hexVal
  rcases h with ⟨h1, h2⟩ | ⟨h1, h2⟩
  · rw [if_pos ⟨h1, h2⟩, if_pos h2]
  · rw [if_neg (by omega), if_pos ⟨h1, h2⟩, if_neg (by omega)]

theorem hexPairs_eq_rawHashBytes : ∀ (h : List Nat), h.length % 2 = 0 →
    (∀ c ∈ h, isLowerHexDigit c = true) → hexPairs h = some (rawHashBytes h)
  | [], _, _ => rfl
  | [_], hlen, _ => by simp at hlen
  | c1 :: c2 :: rest, hlen, hhex => by
    have h1 := hhex c1 (by simp)
    have h2 := hhex c2 (by simp)
    have hrest : hexPairs rest = some (rawHashBytes rest) :=
      hexPairs_eq_rawHashBytes rest (by simp [Nat.add_mod] at hlen ⊢; omega)
        (fun c hc => hhex c (by simp [hc]))
    have hc1 : ¬c1 = 43 := by
      simp only [isLowerHexDigit, Bool.or_eq_true, Bool.and_eq_true,
        decide_eq_true_eq] at h1
      omega
    have hv : hexPairVal c1 c2 = some (16 * hexVal c1 + hexVal c2) := by
      unfold hexPairVal
      rw [if_neg hc1, hexDigitVal_eq c1 h1, hexDigitVal_eq c2 h2]
      rfl
    simp [hexPairs, hv, hrest, rawHashBytes]

theorem rawHashBytes_length : ∀ (h : List Nat),
    (rawHashBytes h).length = h.length / 2
  | [] => rfl
  | [_] => by simp [rawHashBytes]
  | _ :: _ :: rest => by
    simp [rawHashBytes, rawHashBytes_length rest]
    omega

theorem encodeEntries_eq_claim : ∀ (entries : List Entry),
    (∀ e ∈ entries, e.hash.length = 40 ∧ ∀ c ∈ e.hash, isLowerHexDigit c = true) →
    encodeEntries entries = some (treePayloadClaim entries)
  | [], _ => rfl
  | e :: rest, h => by
    obtain ⟨hlen, hhex⟩ := h e (by simp)
    have hp : hexPairs e.hash = some (rawHashBytes e.hash) :=
      hexPairs_eq_rawHashBytes e.hash (by rw [hlen]) hhex
    have hr := encodeEntries_eq_claim rest (fun x hx => h x (by simp [hx]))
    simp [encodeEntries, hp, hr, treePayloadClaim, entryLineClaim,
      List.append_assoc]

theorem joinSep_trailing_eq : ∀ (ps : List (List Nat)), ps ≠ [] →
    joinSep [10] (ps.map fun p => ascii "parent " ++ p) ++ [10] =
      (ps.map fun p => ascii "parent " ++ p ++ [10]).flatten
  | [], h => absurd rfl h
  | [_], _ => by simp [joinSep]
  | p :: q :: rest, _ => by
    have ih := joinSep_trailing_eq (q :: rest) (by simp)
    simp only [List.map_cons] at ih ⊢
    rw [joinSep, List.flatten_cons, ← ih]
    simp [List.append_assoc]

theorem parentsBlock_eq_flatten (ps : List (List Nat)) :
    parentsBlock ps = (ps.map (fun p => ascii "parent " ++ p ++ [10])).flatten := by
  match ps with
  | [] => rfl
  | p :: rest =>
    unfold parentsBlock
    rw [if_pos (by simp)]
    exact joinSep_trailing_eq (p :: rest) (by simp)

theorem processChildren_all_skipped (compress : List Nat → List Nat)
    (ign : List Nat → Bool) :
    ∀ (children : List (List Nat × List Nat × FNode)) (fs : FS),
    (∀ c ∈ children, validUtf8 c.1 = true ∧ validUtf8 c.2.1 = true ∧
      (ign c.1 = true ∨ c.2.2 = FNode.symlinkNode)) →
    processChildren compress ign children fs = some ([], fs)
  | [], _, _ => by simp [processChildren]
  | (p, fn, node) :: rest, fs, h => by
    obtain ⟨hp, hfn, hskip⟩ := h (p, fn, node) (by simp)
    have ih := processChildren_all_skipped compress ign rest fs
      (fun c hc => h c (by simp [hc]))
    rcases hskip with hig | hsym
    · have hig2 : ign p = true := hig
      rw [processChildren.eq_def]
      simp [hp, hfn, hig2, ih]
    · have hsym2 : node = FNode.symlinkNode := hsym
      subst hsym2
      by_cases hig : ign p
      · rw [processChildren.eq_def]
        simp [hp, hfn, hig, ih]
      · rw [processChildren.eq_def]
        simp [hp, hfn, hig, ih]

/-! Claim theorems. -/

/-- Claim C1 (code bug): the round-trip law fails in the code.  The
decoder of `Object::from_hash` reads the type token up to the first space
and then never consumes the declared decimal length and its NUL
terminator, so decoding the encoded framed bytes of `Blob "hi\n"` yields
`Blob "3\0hi\n"`, not `Blob "hi\n"`; likewise the tree decoder folds the
`"29\0"` header into the first entry's mode.  This theorem evaluates the
encoder and decoder at those failing inputs. -/
theorem c1_roundtrip_fails :
    encodeObject (Object.Blob (ascii "hi" ++ [10])) =
      some (ascii "blob 3" ++ [0] ++ ascii "hi" ++ [10]) ∧
    decodeObject (ascii "blob 3" ++ [0] ++ ascii "hi" ++ [10]) =
      some (Object.Blob (ascii "3" ++ [0] ++ ascii "hi" ++ [10])) ∧
    Object.Blob (ascii "3" ++ [0] ++ ascii "hi" ++ [10]) ≠
      Object.Blob (ascii "hi" ++ [10]) ∧
    encodeObject (Object.Tree [⟨ascii "100644", ascii "a", List.replicate 40 97⟩]) =
      some (ascii "tree 29" ++ [0] ++ ascii "100644 a" ++ [0] ++
        List.replicate 20 170) ∧
    decodeObject (ascii "tree 29" ++ [0] ++ ascii "100644 a" ++ [0] ++
        List.replicate 20 170) =
      some (Object.Tree [⟨ascii "29" ++ [0] ++ ascii "100644", ascii "a",
        List.replicate 40 97⟩]) ∧
    Object.Tree [⟨ascii "29" ++ [0] ++ ascii "100644", ascii "a",
        List.replicate 40 97⟩] ≠
      Object.Tree [⟨ascii "100644", ascii "a", List.replicate 40 97⟩] := by
  refine ⟨by decide, by decide, by decide, by decide, by decide, by decide⟩

/-- Claim C2 (code bug): the displayed minutes field is the raw remainder
`|offset| % 3600` in seconds, not `(|offset| % 3600) / 60` as the claim
states.  At offset 1800 s (half an hour) the code renders `"0 +001800"`
while the claimed form is `"0 +0030"`. -/
theorem c2_timestamp_display_bug :
    displayTimestamp ⟨0, 1800⟩ = ascii "0 +001800" ∧
    displayTimestampClaim ⟨0, 1800⟩ = ascii "0 +0030" ∧
    displayTimestamp ⟨0, 1800⟩ ≠ displayTimestampClaim ⟨0, 1800⟩ := by
  refine ⟨by decide, by decide, by decide⟩

/-- Claim C3: writing the same object twice returns the same hash both
times and the second call does not change the store at all (so the record
at the derived address is byte-identical before and after it); moreover a
record exists at the derived address after the first call, and the first
call preserves every record that already existed (write never mutates an
existing record). -/
theorem c3_write_idempotent (compress : List Nat → List Nat) (o : Object)
    (fs : FS) (h1 : List Nat) (fs1 : FS)
    (hw : storeWrite compress o fs = some (h1, fs1)) :
    storeWrite compress o fs1 = some (h1, fs1) ∧
    (lookupFS fs1 (h1.take 2, h1.drop 2)).isSome = true ∧
    (∀ a b, lookupFS fs a = some b → lookupFS fs1 a = some b) := by
  cases henc : encodeObject o with
  | none =>
    rw [storeWrite, henc] at hw
    exact absurd hw (by simp)
  | some content =>
    rw [storeWrite_eq compress o fs content henc] at hw
    cases hlk : lookupFS fs ((sha1Hex content).take 2, (sha1Hex content).drop 2) with
    | some b0 =>
      rw [hlk] at hw
      simp only [Option.some.injEq, Prod.mk.injEq] at hw
      obtain ⟨hh, hf⟩ := hw
      subst hh
      subst hf
      refine ⟨?_, ?_, fun a b hab => hab⟩
      · rw [storeWrite_eq compress o fs content henc, hlk]
      · rw [hlk]
        rfl
    | none =>
      rw [hlk] at hw
      simp only [Option.some.injEq, Prod.mk.injEq] at hw
      obtain ⟨hh, hf⟩ := hw
      subst hh
      subst hf
      refine ⟨?_, ?_, ?_⟩
      · rw [storeWrite_eq compress o _ content henc]
        simp [lookupFS]
      · simp [lookupFS]
      · intro a b hab
        rw [lookupFS]
        by_cases ha : ((sha1Hex content).take 2, (sha1Hex content).drop 2) = a
        · rw [← ha] at hab
          rw [hab] at hlk
          exact absurd hlk (by simp)
        · rw [if_neg ha]
          exact hab

/-- Witness for C3 at a concrete input: writing the empty blob into the
empty store. -/
theorem c3_write_idempotent_witness :
    storeWrite id (Object.Blob []) ((((ascii "e6"),
        (ascii "9de29bb2d1d6434b8b29ae775ad8c2e48c5391")),
        ascii "blob 0" ++ [0]) :: []) =
      some (ascii "e69de29bb2d1d6434b8b29ae775ad8c2e48c5391",
        (((ascii "e6"), (ascii "9de29bb2d1d6434b8b29ae775ad8c2e48c5391")),
          ascii "blob 0" ++ [0]) :: []) := by
  have h := c3_write_idempotent id (Object.Blob []) []
    (ascii "e69de29bb2d1d6434b8b29ae775ad8c2e48c5391")
    ((((ascii "e6"), (ascii "9de29bb2d1d6434b8b29ae775ad8c2e48c5391")),
      ascii "blob 0" ++ [0]) :: []) (by decide)
  exact h.1

/-- Claim C4: sorting by filename makes tree construction order
independent: two permutations of the same entry list with pairwise
distinct filenames (as filesystem enumeration of one directory always
yields) sort to the identical list, hence encode to the identical framed
bytes and hash to the identical hash. -/
theorem c4_canonical_ordering (l1 l2 : List Entry) (hperm : l1.Perm l2)
    (hnd : (l1.map Entry.filename).Nodup) :
    sortEntries l1 = sortEntries l2 ∧
    encodeObject (Object.Tree (sortEntries l1)) =
      encodeObject (Object.Tree (sortEntries l2)) ∧
    objectHash (Object.Tree (sortEntries l1)) =
      objectHash (Object.Tree (sortEntries l2)) := by
  have h := sortEntries_eq_of_perm l1 l2 hperm hnd
  exact ⟨h, by rw [h], by rw [h]⟩

/-- Witness for C4 at a concrete input: the two enumeration orders of a
directory with children `a` and `b`. -/
theorem c4_canonical_ordering_witness :
    sortEntries [⟨ascii "100644", ascii "b", List.replicate 40 98⟩,
        ⟨ascii "100644", ascii "a", List.replicate 40 97⟩] =
      sortEntries [⟨ascii "100644", ascii "a", List.replicate 40 97⟩,
        ⟨ascii "100644", ascii "b", List.replicate 40 98⟩] ∧
    objectHash (Object.Tree (sortEntries
        [⟨ascii "100644", ascii "b", List.replicate 40 98⟩,
         ⟨ascii "100644", ascii "a", List.replicate 40 97⟩])) =
      objectHash (Object.Tree (sortEntries
        [⟨ascii "100644", ascii "a", List.replicate 40 97⟩,
         ⟨ascii "100644", ascii "b", List.replicate 40 98⟩])) := by
  have h := c4_canonical_ordering
    [⟨ascii "100644", ascii "b", List.replicate 40 98⟩,
     ⟨ascii "100644", ascii "a", List.replicate 40 97⟩]
    [⟨ascii "100644", ascii "a", List.replicate 40 97⟩,
     ⟨ascii "100644", ascii "b", List.replicate 40 98⟩]
    (by decide) (by decide)
  exact ⟨h.1, h.2.2⟩

/-- Claim C5: for a tree whose entries carry 40-character lowercase-hex
hashes (and are in filename-ascending order), the encoded framed bytes
are `"tree <decimal payload length>\0"` followed by the payload, where
the payload concatenates, per entry in order, the mode text, one space,
the filename bytes, one NUL, and the 20 raw bytes parsed from the hex
hash text. -/
theorem c5_tree_encoding (entries : List Entry)
    (hhash : ∀ e ∈ entries, e.hash.length = 40 ∧
      ∀ c ∈ e.hash, isLowerHexDigit c = true)
    (_hsorted : entries.Pairwise (fun a b => lexLe a.filename b.filename = true)) :
    encodeObject (Object.Tree entries) =
      some (ascii "tree " ++ natDecimal (treePayloadClaim entries).length ++
        [0] ++ treePayloadClaim entries) ∧
    ∀ e ∈ entries, (rawHashBytes e.hash).length = 20 := by
  refine ⟨?_, ?_⟩
  · have he := encodeEntries_eq_claim entries hhash
    have hts : ascii "tree" ++ [32] = ascii "tree " := by decide
    simp [encodeObject, he, frameBytes, ← hts, List.append_assoc]
  · intro e he2
    rw [rawHashBytes_length e.hash, (hhash e he2).1]

/-- Witness for C5 at a concrete input: a one-entry tree. -/
theorem c5_tree_encoding_witness :
    encodeObject (Object.Tree [⟨ascii "100644", ascii "a",
        List.replicate 40 97⟩]) =
      some (ascii "tree " ++
        natDecimal (treePayloadClaim [⟨ascii "100644", ascii "a",
          List.replicate 40 97⟩]).length ++ [0] ++
        treePayloadClaim [⟨ascii "100644", ascii "a",
          List.replicate 40 97⟩]) ∧
    (rawHashBytes (List.replicate 40 97)).length = 20 := by
  have h := c5_tree_encoding [⟨ascii "100644", ascii "a",
    List.replicate 40 97⟩] (by decide) (by simp)
  exact ⟨h.1, h.2 ⟨ascii "100644", ascii "a", List.replicate 40 97⟩ (by simp)⟩

/-- Claim C6: the commit payload is the `tree` line, one `parent` line per
parent in order (none when the parent list is empty), the `author` and
`committer` lines (with the user displayed as `name <email>`), a blank
line, the message, and a trailing newline — all inside the usual
`"commit <len>\0"` framing. -/
theorem c6_commit_encoding (tree : List Nat) (parents : List (List Nat))
    (author : User) (ats : Timestamp) (committer : User) (cts : Timestamp)
    (message : List Nat) :
    encodeObject (Object.Commit tree parents author ats committer cts message) =
      some (frameBytes (ascii "commit")
        (commitPayloadClaim tree parents author ats committer cts message)) ∧
    (∀ u : User, displayUser u = u.name ++ ascii " <" ++ u.email ++ ascii ">") := by
  constructor
  · simp [encodeObject, commitContent, commitPayloadClaim,
      parentsBlock_eq_flatten, List.append_assoc]
  · intro u
    rfl

/-- Claim C7: the hash returned (and used as the storage address) by
`Object::write` is the SHA-1 digest of the entire framed byte sequence;
the framed byte sequences of identical payload bytes under the `blob` and
`tree` type tokens always differ (they disagree at the first byte), and
at concrete payloads the resulting digests differ from each other and
from the digest of the bare payload. -/
theorem c7_hash_over_framing :
    (∀ (compress : List Nat → List Nat) (o : Object) (fs : FS)
      (content : List Nat), encodeObject o = some content →
      (storeWrite compress o fs).map Prod.fst = some (sha1Hex content)) ∧
    (∀ payload : List Nat,
      frameBytes (ascii "blob") payload ≠ frameBytes (ascii "tree") payload) ∧
    sha1Hex (frameBytes (ascii "blob") (ascii "hi" ++ [10])) ≠
      sha1Hex (frameBytes (ascii "tree") (ascii "hi" ++ [10])) ∧
    sha1Hex (frameBytes (ascii "blob") (ascii "hi" ++ [10])) ≠
      sha1Hex (ascii "hi" ++ [10]) := by
  refine ⟨?_, ?_, by decide, by decide⟩
  · intro compress o fs content henc
    rw [storeWrite_eq compress o fs content henc]
    cases hlk : lookupFS fs ((sha1Hex content).take 2,
      (sha1Hex content).drop 2) <;> rfl
  · intro payload h
    have h1 : (frameBytes (ascii "blob") payload).head? = some 98 := rfl
    rw [h] at h1
    have h2 : (frameBytes (ascii "tree") payload).head? = some 116 := rfl
    rw [h2] at h1
    simp at h1

/-- Witness for C7 at a concrete input: writing the blob `"hi\n"` into the
empty store returns the SHA-1 of its framed bytes. -/
theorem c7_hash_over_framing_witness :
    (storeWrite id (Object.Blob (ascii "hi" ++ [10])) []).map Prod.fst =
      some (sha1Hex (frameBytes (ascii "blob") (ascii "hi" ++ [10]))) :=
  c7_hash_over_framing.1 id (Object.Blob (ascii "hi" ++ [10])) []
    (frameBytes (ascii "blob") (ascii "hi" ++ [10])) rfl

/-- Claim C8: `Ignore::contains` holds exactly when the resolved absolute
form of the path is literally one of the stored entries (so no prefix or
glob matching), any resolution or UTF-8 failure yields `false`, and a
child of `create_tree` whose path the exclusion set contains is skipped
entirely, contributing no tree entry and no store write. -/
theorem c8_exclusion_exact (absResolve : List Nat → Option (List Nat))
    (entries : List (List Nat)) (p : List Nat) :
    (containsIg absResolve entries p = true ↔
      ∃ ap, absResolve p = some ap ∧ ap ∈ entries) ∧
    (absResolve p = none → containsIg absResolve entries p = false) ∧
    (∀ (compress : List Nat → List Nat) (fs : FS) (filename : List Nat)
      (node : FNode) (rest : List (List Nat × List Nat × FNode)),
      containsIg absResolve entries p = true →
      validUtf8 p = true → validUtf8 filename = true →
      processChildren compress (containsIg absResolve entries)
          ((p, filename, node) :: rest) fs =
        processChildren compress (containsIg absResolve entries) rest fs) := by
  refine ⟨?_, ?_, ?_⟩
  · unfold containsIg
    cases habs : absResolve p with
    | none => simp
    | some ap =>
      constructor
      · intro h
        exact ⟨ap, rfl, by simpa [List.contains] using h⟩
      · rintro ⟨x, hx, hmem⟩
        obtain rfl : ap = x := by
          injection hx
        simpa [List.contains] using hmem
  · intro h
    unfold containsIg
    rw [h]
  · intro compress fs filename node rest hc hp hfn
    rw [processChildren.eq_def]
    simp [hp, hfn, hc]

/-- Witness for C8 at concrete inputs, with identity absolute resolution:
the listed path is excluded, a path merely sharing a prefix with it is
not, and the excluded child is skipped by the child loop. -/
theorem c8_exclusion_exact_witness :
    containsIg some [ascii "/x/a"] (ascii "/x/a") = true ∧
    containsIg some [ascii "/x/a"] (ascii "/x/ab") = false ∧
    processChildren id (containsIg some [ascii "/x/a"])
        [(ascii "/x/a", ascii "a", FNode.fileNode (ascii "hi") false)] [] =
      processChildren id (containsIg some [ascii "/x/a"]) [] [] := by
  have h := c8_exclusion_exact some [ascii "/x/a"] (ascii "/x/a")
  have hc : containsIg some [ascii "/x/a"] (ascii "/x/a") = true :=
    h.1.mpr ⟨ascii "/x/a", rfl, by simp⟩
  exact ⟨hc, by decide,
    h.2.2 id [] (ascii "a") (FNode.fileNode (ascii "hi") false) [] hc
      (by decide) (by decide)⟩

/-- Claim C9 counterexample: a readable directory whose only child is a
symbolic link — but one whose name is not valid UTF-8 — makes
`create_tree` fail (the `to_str` conversion errors before the symlink is
skipped), so the claim's `all symbolic links implies success` is false as
stated. -/
theorem c9_counterexample :
    (∀ c ∈ [(([255], [255], FNode.symlinkNode) :
        List Nat × List Nat × FNode)], c.2.2 = FNode.symlinkNode) ∧
    createTree id (fun _ => false) [([255], [255], FNode.symlinkNode)] [] =
      none := by
  constructor
  · intro c hc
    rw [List.mem_singleton] at hc
    subst hc
    rfl
  · unfold createTree
    rw [processChildren.eq_def]
    have hv : validUtf8 [255] = false := by decide
    simp [hv]

/-- Claim C9 (amended): for every readable directory whose enumerated
children all have UTF-8-valid paths and filenames and are each excluded
or symbolic links (in particular, for an empty directory), `create_tree`
succeeds: it encodes the empty-entry tree as the framed bytes
`"tree 0\0"`, writes it, and returns that object's hash (the well-known
constant `4b825d...`), which is then present in the store. -/
theorem c9_empty_tree (compress : List Nat → List Nat) (ign : List Nat → Bool)
    (children : List (List Nat × List Nat × FNode)) (fs : FS)
    (h : ∀ c ∈ children, validUtf8 c.1 = true ∧ validUtf8 c.2.1 = true ∧
      (ign c.1 = true ∨ c.2.2 = FNode.symlinkNode)) :
    encodeObject (Object.Tree []) = some (ascii "tree 0" ++ [0]) ∧
    sha1Hex (ascii "tree 0" ++ [0]) =
      ascii "4b825dc642cb6eb9a060e54bf8d69288fbee4904" ∧
    ∃ fs1, createTree compress ign children fs =
        some (ascii "4b825dc642cb6eb9a060e54bf8d69288fbee4904", fs1) ∧
      (lookupFS fs1 (ascii "4b",
        ascii "825dc642cb6eb9a060e54bf8d69288fbee4904")).isSome = true := by
  refine ⟨by decide, by decide, ?_⟩
  have hpc := processChildren_all_skipped compress ign children fs h
  unfold createTree
  rw [hpc]
  dsimp only
  have hse : sortEntries ([] : List Entry) = [] := by
    simp [sortEntries]
  rw [hse]
  have henc : encodeObject (Object.Tree []) = some (ascii "tree 0" ++ [0]) := by
    decide
  rw [storeWrite_eq compress (Object.Tree []) fs (ascii "tree 0" ++ [0]) henc]
  have hh : sha1Hex (ascii "tree 0" ++ [0]) =
      ascii "4b825dc642cb6eb9a060e54bf8d69288fbee4904" := by decide
  rw [hh]
  have ht : (ascii "4b825dc642cb6eb9a060e54bf8d69288fbee4904").take 2 =
      ascii "4b" := by decide
  have hd : (ascii "4b825dc642cb6eb9a060e54bf8d69288fbee4904").drop 2 =
      ascii "825dc642cb6eb9a060e54bf8d69288fbee4904" := by decide
  rw [ht, hd]
  cases hlk : lookupFS fs (ascii "4b",
    ascii "825dc642cb6eb9a060e54bf8d69288fbee4904") with
  | some b => exact ⟨fs, rfl, by rw [hlk]; rfl⟩
  | none =>
    refine ⟨_, rfl, ?_⟩
    simp [lookupFS]

/-- Witness for the amended C9 at a concrete input: the empty directory
and the empty store. -/
theorem c9_empty_tree_witness :
    ∃ fs1, createTree id (fun _ => false) [] [] =
        some (ascii "4b825dc642cb6eb9a060e54bf8d69288fbee4904", fs1) ∧
      (lookupFS fs1 (ascii "4b",
        ascii "825dc642cb6eb9a060e54bf8d69288fbee4904")).isSome = true :=
  (c9_empty_tree id (fun _ => false) [] [] (by simp)).2.2

/-- Claim C10: `Object::from_hash` is not total in the hash argument: for
any hash whose byte length is under 2, or whose byte at index 2 is a
UTF-8 continuation byte (so index 2 is not a character boundary), the
string slicing `&hash[..2]` / `&hash[2..]` panics — modelled by the outer
`none` — no matter what the filesystem holds, instead of returning an
error value. -/
theorem c10_from_hash_not_total :
    (∀ (readObj : List Nat → Option (List Nat)) (hash : List Nat),
      hash.length < 2 → from_hashModel readObj hash = none) ∧
    (∀ (readObj : List Nat → Option (List Nat)) (hash : List Nat) (b : Nat),
      hash.get? 2 = some b → 128 ≤ b → b < 192 →
      from_hashModel readObj hash = none) := by
  constructor
  · intro readObj hash hlen
    have hb : isCharBoundary hash 2 = false := by
      unfold isCharBoundary
      rw [if_neg (by omega), if_neg (by omega),
        List.get?_eq_none.mpr (by omega)]
    simp [from_hashModel, sliceAddr, hb]
  · intro readObj hash b hget h1 h2
    have hlen : 2 < hash.length := by
      by_contra hc
      rw [List.get?_eq_none.mpr (by omega)] at hget
      exact absurd hget (by simp)
    have hb : isCharBoundary hash 2 = false := by
      unfold isCharBoundary
      rw [if_neg (by omega), if_neg (by omega), hget]
      simp only [Bool.or_eq_false_iff, decide_eq_false_iff_not]
      omega
    simp [from_hashModel, sliceAddr, hb]

/-- Witness for C10 at concrete inputs: the one-byte hash `"a"` and the
three-byte hash whose third byte is a continuation byte (`"a¢"`). -/
theorem c10_from_hash_not_total_witness :
    from_hashModel (fun _ => some []) (ascii "a") = none ∧
    from_hashModel (fun _ => some []) [97, 194, 162] = none :=
  ⟨c10_from_hash_not_total.1 (fun _ => some []) (ascii "a") (by decide),
   c10_from_hash_not_total.2 (fun _ => some []) [97, 194, 162] 162 rfl
     (by omega) (by omega)⟩

end Mygit
